import Mathlib

/-!
Verification development for the WebLLM engine wrapper extension
(`src/index.js`).  The development shallowly embeds the components the
specification talks about:

* `Json` values and `parseJson`, a model of the platform `JSON.parse`
  (restricted to decimal numerals without exponents and to the common
  string escapes; `\u` escapes are rejected).  `jsTryParse` embeds the
  wrapper's `#tryParse` (line 156-162), which catches parse exceptions
  and returns `null`.
* association-list objects with last-assignment-wins lookup, embedding
  the JavaScript spread `{ ...a, ...b }` used by `#getParams`
  (line 232-234).
* the static model catalog projection `getModels` (line 211-217) and
  `getCurrentModelInfo` (line 240-246).
* the retry wrapper `#generateWithRetry` (line 325-348) as a pure
  function of the per-attempt outcomes of the thunk and of
  `engine.reload`, together with the post-processing done by
  `generateChatPrompt` (line 263-272) and `generateJSON` (line 280-292).
* the streaming accumulation loop of `generateChatStream`
  (line 301-316).
* the `AsyncLock` mutex (line 24-47), both as pure `acquireLock` /
  `releaseLock` state functions and inside a small-step scheduler for
  the cooperative (single-threaded, suspension-only-at-await-points)
  executions of `#initEngine` (line 169-205) and `#generateWithRetry`
  critical sections.
-/

namespace WebLLM

/-- JavaScript values produced by `JSON.parse`.  Numbers are modelled by
rationals (no arithmetic is ever performed on them by the wrapper, they
are only stored and compared). -/
inductive Json where
  | null : Json
  | bool (b : Bool) : Json
  | num (q : ℚ) : Json
  | str (s : String) : Json
  | arr (elems : List Json) : Json
  | obj (fields : List (String × Json)) : Json

/-- Double-quote character. -/
def quoteChar : Char := Char.ofNat 34

/-- Backslash character. -/
def backslashChar : Char := Char.ofNat 92

/-- Opening curly bracket character. -/
def braceOpenChar : Char := Char.ofNat 123

/-- Closing curly bracket character. -/
def braceCloseChar : Char := Char.ofNat 125

/-- JSON whitespace. -/
def jsonWs (c : Char) : Bool :=
  c = ' ' || c = Char.ofNat 9 || c = Char.ofNat 10 || c = Char.ofNat 13

/-- Strip an expected literal (like `ull` after the leading `n` of
`null`) from the input. -/
def stripLit : List Char → List Char → Option (List Char)
  | [], cs => some cs
  | _ :: _, [] => none
  | l :: ls, c :: cs => if c = l then stripLit ls cs else none

/-- Translate the character following a backslash in a JSON string. -/
def escChar (e : Char) : Char :=
  if e = 'n' then Char.ofNat 10
  else if e = 't' then Char.ofNat 9
  else if e = 'r' then Char.ofNat 13
  else if e = 'b' then Char.ofNat 8
  else if e = 'f' then Char.ofNat 12
  else e

/-- Parse the body of a JSON string (the opening quote has been
consumed); `acc` holds the already-read characters in reverse. -/
def parseStringGo (acc : List Char) : List Char → Option (String × List Char)
  | [] => none
  | c :: rest =>
    if c = quoteChar then some (String.mk acc.reverse, rest)
    else if c = backslashChar then
      match rest with
      | [] => none
      | e :: rest2 =>
        if e = 'u' then none
        else parseStringGo (escChar e :: acc) rest2
    else parseStringGo (c :: acc) rest

/-- Numeric value of a list of decimal digits. -/
def digitsToNat (ds : List Char) : Nat :=
  ds.foldl (fun n c => 10 * n + (c.toNat - 48)) 0

/-- Parse a JSON number (integer part and optional fraction; exponents
are not supported by this model). -/
def parseNumber (cs : List Char) : Option (ℚ × List Char) :=
  let signAndRest : Bool × List Char :=
    match cs with
    | c :: rest => if c = '-' then (true, rest) else (false, cs)
    | [] => (false, cs)
  let neg := signAndRest.1
  let cs1 := signAndRest.2
  let intSpan := cs1.span Char.isDigit
  if intSpan.1.isEmpty then none
  else
    let ip : ℚ := (digitsToNat intSpan.1 : ℚ)
    match intSpan.2 with
    | c :: rest =>
      if c = '.' then
        let fracSpan := rest.span Char.isDigit
        if fracSpan.1.isEmpty then none
        else
          let q := ip + (digitsToNat fracSpan.1 : ℚ) / ((10 : ℚ) ^ fracSpan.1.length)
          some (if neg then -q else q, fracSpan.2)
      else some (if neg then -ip else ip, intSpan.2)
    | [] => some (if neg then -ip else ip, intSpan.2)

mutual

/-- Fueled recursive-descent JSON value parser. -/
def parseVal : Nat → List Char → Option (Json × List Char)
  | 0, _ => none
  | fuel + 1, cs0 =>
    let cs := cs0.dropWhile jsonWs
    match cs with
    | [] => none
    | c :: rest =>
      if c = 'n' then (stripLit ['u', 'l', 'l'] rest).map (fun r => (Json.null, r))
      else if c = 't' then (stripLit ['r', 'u', 'e'] rest).map (fun r => (Json.bool true, r))
      else if c = 'f' then (stripLit ['a', 'l', 's', 'e'] rest).map (fun r => (Json.bool false, r))
      else if c = quoteChar then (parseStringGo [] rest).map (fun p => (Json.str p.1, p.2))
      else if c = '[' then
        let rest1 := rest.dropWhile jsonWs
        match rest1 with
        | d :: rest2 => if d = ']' then some (Json.arr [], rest2)
                        else (parseElems fuel rest1).map (fun p => (Json.arr p.1, p.2))
        | [] => none
      else if c = braceOpenChar then
        let rest1 := rest.dropWhile jsonWs
        match rest1 with
        | d :: rest2 => if d = braceCloseChar then some (Json.obj [], rest2)
                        else (parseMembers fuel rest1).map (fun p => (Json.obj p.1, p.2))
        | [] => none
      else if c = '-' || c.isDigit then (parseNumber cs).map (fun p => (Json.num p.1, p.2))
      else none

/-- Parse a nonempty comma-separated list of array elements followed by
the closing square bracket. -/
def parseElems : Nat → List Char → Option (List Json × List Char)
  | 0, _ => none
  | fuel + 1, cs => do
    let (v, r) ← parseVal fuel cs
    let r1 := r.dropWhile jsonWs
    match r1 with
    | c :: r2 =>
      if c = ',' then (parseElems fuel r2).map (fun p => (v :: p.1, p.2))
      else if c = ']' then some ([v], r2)
      else none
    | [] => none

/-- Parse a nonempty comma-separated list of object members followed by
the closing curly bracket. -/
def parseMembers : Nat → List Char → Option (List (String × Json) × List Char)
  | 0, _ => none
  | fuel + 1, cs0 =>
    let cs := cs0.dropWhile jsonWs
    match cs with
    | c :: rest =>
      if c = quoteChar then do
        let (k, r) ← parseStringGo [] rest
        let r1 := r.dropWhile jsonWs
        match r1 with
        | d :: r2 =>
          if d = ':' then do
            let (v, r3) ← parseVal fuel r2
            let r4 := r3.dropWhile jsonWs
            match r4 with
            | e :: r5 =>
              if e = ',' then (parseMembers fuel r5).map (fun p => ((k, v) :: p.1, p.2))
              else if e = braceCloseChar then some ([(k, v)], r5)
              else none
            | [] => none
          else none
        | [] => none
      else none
    | [] => none

end

/-- Model of the platform `JSON.parse` applied to a string: parse one
value and require only whitespace to remain. -/
def parseJson (s : String) : Option Json :=
  match parseVal (2 * s.length + 2) s.data with
  | some (v, r) => if (r.dropWhile jsonWs).isEmpty then some v else none
  | none => none

/-- Embeds `#tryParse` (line 156-162): `JSON.parse` inside
`try`/`catch`, returning `null` on a parse exception.  The argument is
the `content ?? null` value passed at line 291: a missing content is the
JavaScript `null`, which `JSON.parse` coerces to the string `"null"` and
parses to the value `null`. -/
def jsTryParse (content : Option String) : Json :=
  match content with
  | none => Json.null
  | some s => (parseJson s).getD Json.null

/-! ### Completion responses and chunks -/

/-- The `message` field of a completion choice. -/
structure CompletionMessage where
  content : Option String
deriving DecidableEq

/-- One element of a completion's `choices` array. -/
structure CompletionChoice where
  message : Option CompletionMessage
deriving DecidableEq

/-- A non-streaming chat completion returned by the backend. -/
structure ChatCompletion where
  choices : List CompletionChoice
deriving DecidableEq

/-- Embeds `completion?.choices?.[0]?.message?.content` (lines 271 and
291): optional chaining through the first choice. -/
def contentOf (c? : Option ChatCompletion) : Option String :=
  ((c?.bind (fun c => c.choices.head?)).bind (fun ch => ch.message)).bind
    (fun m => m.content)

/-- The `delta` field of a streaming chunk choice. -/
structure StreamDelta where
  content : Option String
deriving DecidableEq

/-- One element of a streaming chunk's `choices` array. -/
structure StreamChoice where
  delta : Option StreamDelta
deriving DecidableEq

/-- One chunk of the backend's streaming chunk sequence. -/
structure StreamChunk where
  choices : List StreamChoice
deriving DecidableEq

/-- A record yielded by `generateChatStream`. -/
structure StreamRecord where
  text : String
  swipes : List Json
  logprobs : Option Json

/-- Embeds `choice?.choices?.[0]?.delta?.content ?? ''` (line 313). -/
def deltaContent (c : StreamChunk) : String :=
  (((c.choices.head?).bind (fun ch => ch.delta)).bind (fun d => d.content)).getD ""

/-- The accumulation loop of `generateChatStream` (lines 311-315):
`acc` is the value of the local `text` before the next chunk is
consumed. -/
def streamGo (acc : String) : List StreamChunk → List StreamRecord
  | [] => []
  | c :: cs =>
    let t := acc ++ deltaContent c
    { text := t, swipes := [], logprobs := none } :: streamGo t cs

/-- Embeds the record sequence yielded by `generateChatStream`
(line 301-316) on a given backend chunk sequence. -/
def generateChatStreamRecords (chunks : List StreamChunk) : List StreamRecord :=
  streamGo "" chunks

/-- Concatenation of a list of fragments. -/
def concatAll : List String → String
  | [] => ""
  | d :: ds => d ++ concatAll ds

/-- Modelled from the spec's words: the text of the `i`-th yielded
record is the cumulative concatenation of all content fragments
received so far, i.e. of the first `i + 1` deltas. -/
def specCumulativeTexts (ds : List String) : List String :=
  (List.range ds.length).map (fun i => concatAll (ds.take (i + 1)))

/-! ### Parameter objects and the spread merge -/

/-- JavaScript objects as assignment lists (earlier entries were
assigned first; a later assignment to the same key overrides).  Reading
a property takes the last assignment. -/
def getProp : List (String × Json) → String → Option Json
  | [], _ => none
  | (k', v) :: rest, k => (getProp rest k).orElse (fun _ => if k' = k then some v else none)

/-- The JavaScript spread `{ ...a, ...b }`: assign all of `a`'s
properties, then all of `b`'s. -/
def spreadObj (a b : List (String × Json)) : List (String × Json) := a ++ b

/-- Embeds `#getParams` (line 232-234):
`{ ...this.#defaultCompletionParams, ...params }`.  A `null` object
contributes no assignments and is represented by `[]`. -/
def getParams (defaults override : List (String × Json)) : List (String × Json) :=
  spreadObj defaults override

/-! ### Model catalog -/

/-- The `overrides` record of a catalog entry. -/
structure ModelOverrides where
  context_window_size : Option Nat
deriving DecidableEq

/-- One entry of `webllm.prebuiltAppConfig.model_list`. -/
structure ModelRecord where
  model_id : String
  vram_required_MB : ℚ
  overrides : Option ModelOverrides
deriving DecidableEq

/-- The model view model (the `toString` display closure of the source
is presentation-only and is not modelled). -/
structure ModelView where
  id : String
  vram_required : ℚ
  context_size : Option Nat
deriving DecidableEq

/-- The non-null branch of `#modelToViewModel` (line 148-153). -/
def mvm (m : ModelRecord) : ModelView :=
  { id := m.model_id
    vram_required := m.vram_required_MB
    context_size := m.overrides.bind (fun o => o.context_window_size) }

/-- Embeds `#modelToViewModel` (line 143-154) including its null guard. -/
def modelToViewModel (m? : Option ModelRecord) : Option ModelView :=
  m?.map mvm

/-- ASCII uppercase test. -/
def isAsciiUpper (c : Char) : Bool := 65 ≤ c.toNat && c.toNat ≤ 90

/-- ASCII lowercase folding of a character. -/
def asciiLowerChar (c : Char) : Char :=
  if isAsciiUpper c then Char.ofNat (c.toNat + 32) else c

/-- ASCII lowercase folding of a string (the catalog's model ids are
ASCII). -/
def asciiLower (s : String) : String := String.mk (s.data.map asciiLowerChar)

/-- Case pattern of a string packed into a number, uppercase positions
as 1-bits, leftmost position most significant.  Between strings with
equal lowercase foldings (hence of equal length) comparing the keys is
exactly the positional lowercase-before-uppercase comparison. -/
def caseKey (s : String) : Nat :=
  s.data.foldl (fun n c => 2 * n + (if isAsciiUpper c then 1 else 0)) 0

/-- Modelled from the platform: the order induced by
`a.localeCompare(b)` under the default locale (ECMA-402, backed by the
ICU root collation in mainstream engines), restricted to the catalog's
ASCII model ids.  The root collation compares letters
case-insensitively at primary strength — so the primary key is the
lowercase folding — and lets case decide only between strings with
equal foldings, lowercase before uppercase (tertiary strength).
Code-point comparison of the folded strings also reproduces the root
collation's relative order of hyphens, periods, digits and letters;
the placement of rarer punctuation (e.g. the underscore) is only
approximated. -/
def localeLe (a b : String) : Prop :=
  asciiLower a < asciiLower b ∨ (asciiLower a = asciiLower b ∧ caseKey a ≤ caseKey b)

instance localeLeDecidable : DecidableRel localeLe := fun a b => by
  unfold localeLe
  exact inferInstance

/-- Embeds `getModels` (line 211-217): map the registry through the
view-model projection and sort by id with the
`a.id.localeCompare(b.id)` comparator, embedded by `localeLe`;
`Array.prototype.sort` (a stable comparison sort, the algorithm being
unspecified by the language) is modelled by a stable insertion
sort. -/
def getModels (registry : List ModelRecord) : List ModelView :=
  List.insertionSort (fun a b => localeLe a.id b.id) (registry.map mvm)

/-- JavaScript string truthiness for optional string values: `null`,
`undefined` and the empty string are falsy. -/
def truthyStr : Option String → Bool
  | none => false
  | some s => !s.isEmpty

/-- Embeds `getCurrentModelInfo` (line 240-246) as a function of the
session's `#currentModelId`: `null` when the id is falsy, else the view
model of the first registry entry with that id (`undefined` from a
missed `find` passes through the null guard of `#modelToViewModel`). -/
def getCurrentModelInfoFrom (registry : List ModelRecord) (currentModelId : Option String) :
    Option ModelView :=
  if truthyStr currentModelId then
    modelToViewModel (registry.find? (fun m => m.model_id = (currentModelId.getD "")))
  else none

/-! ### The retry wrapper `#generateWithRetry` (line 325-348)

The wrapper's control flow is sequential (its mutex interaction is
modelled in the scheduler section below).  The backend is abstracted by
the outcome of the thunk on each attempt (`funcOut n` is what
`await func()` does on attempt `n`) and by the outcome of each
`engine.reload` call (`reloadOut n` follows the failed attempt `n`).
`Except.error e` is a thrown exception; the overall result
`Except.ok none` is the JavaScript `undefined` produced when the
`while` loop exits without returning. -/

/-- Actions performed by the retry wrapper, in order: backend completion
attempts and model reloads. -/
inductive RetryAct where
  | attemptAct (n : Nat) : RetryAct
  | reloadAct (n : Nat) : RetryAct
deriving DecidableEq

/-- The `while (i++ < maxRetries)` loop of `#generateWithRetry`
(line 329-344) starting with counter value `i`, also recording the
performed actions.  The `maxRetries = 0` re-throw branch (line 336-339)
is kept even though it is unreachable whenever the loop body runs. -/
def retryGo (funcOut : Nat → Except String α) (reloadOut : Nat → Except String Unit)
    (maxRetries : Nat) (i : Nat) (log : List RetryAct) :
    Except String (Option α) × List RetryAct :=
  if i < maxRetries then
    let log1 := log ++ [RetryAct.attemptAct (i + 1)]
    match funcOut (i + 1) with
    | Except.ok v => (Except.ok (some v), log1)
    | Except.error e =>
      if maxRetries = 0 then (Except.error e, log1)
      else
        let log2 := log1 ++ [RetryAct.reloadAct (i + 1)]
        match reloadOut (i + 1) with
        | Except.ok _ => retryGo funcOut reloadOut maxRetries (i + 1) log2
        | Except.error e2 => (Except.error e2, log2)
  else (Except.ok none, log)
termination_by maxRetries - i

/-- Embeds `#generateWithRetry` (line 325-348).  The default
`maxRetries` at every call site is `1`. -/
def generateWithRetry (funcOut : Nat → Except String α)
    (reloadOut : Nat → Except String Unit) (maxRetries : Nat := 1) :
    Except String (Option α) × List RetryAct :=
  retryGo funcOut reloadOut maxRetries 0 []

/-- Embeds `generateChatPrompt` (line 263-272): await `#initEngine`,
run the completion thunk through `#generateWithRetry`, then return
`completion?.choices?.[0]?.message?.content ?? ''`. -/
def generateChatPromptRun (initOut : Except String Unit)
    (funcOut : Nat → Except String ChatCompletion)
    (reloadOut : Nat → Except String Unit) : Except String String :=
  match initOut with
  | Except.error e => Except.error e
  | Except.ok _ =>
    match (generateWithRetry funcOut reloadOut).1 with
    | Except.error e => Except.error e
    | Except.ok c? => Except.ok ((contentOf c?).getD "")

/-- Embeds `generateJSON` (line 280-292): await `#initEngine`, run the
completion thunk through `#generateWithRetry`, then
`#tryParse(completion?.choices?.[0]?.message?.content ?? null)`. -/
def generateJSONRun (initOut : Except String Unit)
    (funcOut : Nat → Except String ChatCompletion)
    (reloadOut : Nat → Except String Unit) : Except String Json :=
  match initOut with
  | Except.error e => Except.error e
  | Except.ok _ =>
    match (generateWithRetry funcOut reloadOut).1 with
    | Except.error e => Except.error e
    | Except.ok c? => Except.ok (jsTryParse (contentOf c?))

/-! ### The `AsyncLock` mutex (line 24-47), pure state functions -/

/-- The private state of an `AsyncLock`: the `#lock` flag and the
`#queue` of parked resolvers, identified by the ids of the waiting
callers in arrival order (head = oldest). -/
structure LockSt where
  lock : Bool
  queue : List Nat
deriving DecidableEq

/-- Embeds `acquireLock` (line 28-35) as seen by caller `t`: if the
lock is held, park a resolver at the back of the queue and suspend
(result `false`); otherwise take the lock at once (result `true`). -/
def acquireLock (t : Nat) (s : LockSt) : LockSt × Bool :=
  if s.lock then ({ s with queue := s.queue ++ [t] }, false)
  else ({ s with lock := true }, true)

/-- Embeds `releaseLock` (line 37-46): if waiters exist, `shift` the
oldest resolver out of the queue and resume it (the `#lock` flag stays
set); otherwise clear the flag. -/
def releaseLock (s : LockSt) : LockSt × Option Nat :=
  match s.queue with
  | r :: rest => ({ s with queue := rest }, some r)
  | [] => ({ s with lock := false }, none)

/-- A request history against one `AsyncLock`: acquisition attempts by
identified callers and releases by current holders. -/
inductive LockEv where
  | acq (t : Nat) : LockEv
  | rel : LockEv
deriving DecidableEq

/-- Run a request history through `acquireLock`/`releaseLock`,
returning the final state, the list of waiters that were granted the
lock by `releaseLock` (in grant order) and the list of callers whose
acquisition attempt was deferred (in arrival order). -/
def lockRun (s : LockSt) : List LockEv → LockSt × List Nat × List Nat
  | [] => (s, [], [])
  | LockEv.acq t :: evs =>
    let a := acquireLock t s
    let r := lockRun a.1 evs
    (r.1, r.2.1, if a.2 then r.2.2 else t :: r.2.2)
  | LockEv.rel :: evs =>
    let a := releaseLock s
    let r := lockRun a.1 evs
    (r.1, a.2.toList ++ r.2.1, r.2.2)

/-! ### Cooperative small-step scheduler for one session

JavaScript runs the session single-threaded: control changes hands only
at `await` points.  A task is one call of `#initEngine(modelId)`
(line 169-205) or one `#generateWithRetry` critical section
(line 325-348); each step below is one maximal synchronous run between
two `await` points of that task, and a schedule is the (arbitrary)
sequence of task resumptions.  The lock transitions inline the
`AsyncLock` code: a caller that finds `#lock` set parks itself in
`#queue` and suspends; `releaseLock` `shift`s the oldest waiter, whose
resumed continuation later re-asserts `#lock = true` (phase
`entering`) before running the body. -/

/-- The two operations that enter the session's critical section.  The
backend is abstracted by per-call outcomes: for `initOp`, whether
`webllm.CreateMLCEngine` and `engine.reload` succeed; for `genOp`
(`#generateWithRetry` with bound `maxRetries`), the outcome of each
completion attempt and of each recovery reload. -/
inductive OpKind where
  | initOp (target : Option String) (createOk : Bool) (reloadOk : Bool) : OpKind
  | genOp (maxRetries : Nat) (funcOk : Nat → Bool) (reloadOk : Nat → Bool) : OpKind

/-- Program counter of a task, one value per `await` boundary. -/
inductive Pc where
  | start : Pc
  | waiting : Pc
  | entering : Pc
  | body : Pc
  | awaitCreate (m : String) : Pc
  | awaitReload (m : String) : Pc
  | retryLoop (i : Nat) : Pc
  | awaitFunc (j : Nat) : Pc
  | awaitRetryReload (j : Nat) : Pc
  | done (resolved : Bool) : Pc
deriving DecidableEq

/-- A task: its operation and its current program counter. -/
structure Task where
  kind : OpKind
  pc : Pc

/-- Trace events: lock grants, backend call boundaries and lock
releases, used to state serializability. -/
inductive Ev where
  | acq (t : Nat) : Ev
  | callStart (t : Nat) : Ev
  | callEnd (t : Nat) : Ev
  | rel (t : Nat) : Ev
deriving DecidableEq

/-- Session state: the `AsyncLock` fields, the engine handle (`some m`
means a handle resident with model `m`, `none` the initial `null`),
`#currentModelId`, the tasks, the ghost event trace, and a ghost flag
recording whether some backend create/reload call has failed. -/
structure Sys where
  lock : Bool
  queue : List Nat
  engine : Option String
  currentModelId : Option String
  tasks : Nat → Task
  events : List Ev
  failed : Bool

/-- Replace the program counter of task `t`. -/
def setPc (f : Nat → Task) (t : Nat) (p : Pc) : Nat → Task :=
  Function.update f t { kind := (f t).kind, pc := p }

/-- Embeds `releaseLock` (line 37-46) inside the scheduler: resume the
oldest waiter if any (it will re-assert the flag when scheduled), else
clear the flag. -/
def releaseStep (s : Sys) : Sys :=
  match s.queue with
  | r :: rest => { s with queue := rest, tasks := setPc s.tasks r Pc.entering }
  | [] => { s with lock := false }

/-- Program counter reached right after the lock is acquired: the body
of `#initEngine`, or the top of the retry loop with `i = 0`. -/
def bodyPc : OpKind → Pc
  | OpKind.initOp _ _ _ => Pc.body
  | OpKind.genOp _ _ _ => Pc.retryLoop 0

/-- Resolution of the effective model id at line 175-181:
`if (!modelId && this.#currentModelId) modelId = this.#currentModelId;
if (!modelId) throw ...`.  JavaScript string falsiness (empty string
counts as absent) is respected; `none` is the `ConfigurationError`
case. -/
def resolveTarget (target currentModelId : Option String) : Option String :=
  if truthyStr target then target
  else if truthyStr currentModelId then currentModelId
  else none

/-- One scheduler step of task `t`: the maximal synchronous run from
`t`'s current suspension point to its next one.  Tasks that are parked
(`waiting`) or finished (`done`) have no step; scheduling them is a
no-op. -/
def stepTask (s : Sys) (t : Nat) : Sys :=
  match (s.tasks t).pc with
  | Pc.start =>
    if s.lock then { s with queue := s.queue ++ [t], tasks := setPc s.tasks t Pc.waiting }
    else { s with lock := true, tasks := setPc s.tasks t (bodyPc (s.tasks t).kind),
                  events := s.events ++ [Ev.acq t] }
  | Pc.waiting => s
  | Pc.entering =>
    { s with lock := true, tasks := setPc s.tasks t (bodyPc (s.tasks t).kind),
             events := s.events ++ [Ev.acq t] }
  | Pc.body =>
    match (s.tasks t).kind with
    | OpKind.initOp target _ _ =>
      match resolveTarget target s.currentModelId with
      | none =>
        releaseStep { s with tasks := setPc s.tasks t (Pc.done false),
                             events := s.events ++ [Ev.rel t] }
      | some m =>
        if s.engine = none then
          { s with currentModelId := some m, tasks := setPc s.tasks t (Pc.awaitCreate m),
                   events := s.events ++ [Ev.callStart t] }
        else if s.currentModelId ≠ some m then
          { s with currentModelId := some m, tasks := setPc s.tasks t (Pc.awaitReload m),
                   events := s.events ++ [Ev.callStart t] }
        else
          releaseStep { s with tasks := setPc s.tasks t (Pc.done true),
                               events := s.events ++ [Ev.rel t] }
    | OpKind.genOp _ _ _ => s
  | Pc.awaitCreate m =>
    match (s.tasks t).kind with
    | OpKind.initOp _ createOk _ =>
      if createOk then
        releaseStep { s with engine := some m, tasks := setPc s.tasks t (Pc.done true),
                             events := s.events ++ [Ev.callEnd t, Ev.rel t] }
      else
        releaseStep { s with failed := true, tasks := setPc s.tasks t (Pc.done false),
                             events := s.events ++ [Ev.callEnd t, Ev.rel t] }
    | OpKind.genOp _ _ _ => s
  | Pc.awaitReload m =>
    match (s.tasks t).kind with
    | OpKind.initOp _ _ reloadOk =>
      if reloadOk then
        releaseStep { s with engine := some m, tasks := setPc s.tasks t (Pc.done true),
                             events := s.events ++ [Ev.callEnd t, Ev.rel t] }
      else
        releaseStep { s with failed := true, tasks := setPc s.tasks t (Pc.done false),
                             events := s.events ++ [Ev.callEnd t, Ev.rel t] }
    | OpKind.genOp _ _ _ => s
  | Pc.retryLoop i =>
    match (s.tasks t).kind with
    | OpKind.genOp maxRetries _ _ =>
      if i < maxRetries then
        match s.engine with
        | some _ =>
          { s with tasks := setPc s.tasks t (Pc.awaitFunc (i + 1)),
                   events := s.events ++ [Ev.callStart t] }
        | none =>
          releaseStep { s with tasks := setPc s.tasks t (Pc.done false),
                               events := s.events ++ [Ev.rel t] }
      else
        releaseStep { s with tasks := setPc s.tasks t (Pc.done true),
                             events := s.events ++ [Ev.rel t] }
    | OpKind.initOp _ _ _ => s
  | Pc.awaitFunc j =>
    match (s.tasks t).kind with
    | OpKind.genOp maxRetries funcOk _ =>
      if funcOk j then
        releaseStep { s with tasks := setPc s.tasks t (Pc.done true),
                             events := s.events ++ [Ev.callEnd t, Ev.rel t] }
      else if maxRetries = 0 then
        releaseStep { s with tasks := setPc s.tasks t (Pc.done false),
                             events := s.events ++ [Ev.callEnd t, Ev.rel t] }
      else
        match s.engine with
        | some _ =>
          { s with tasks := setPc s.tasks t (Pc.awaitRetryReload j),
                   events := s.events ++ [Ev.callEnd t, Ev.callStart t] }
        | none =>
          releaseStep { s with tasks := setPc s.tasks t (Pc.done false),
                               events := s.events ++ [Ev.callEnd t, Ev.rel t] }
    | OpKind.initOp _ _ _ => s
  | Pc.awaitRetryReload j =>
    match (s.tasks t).kind with
    | OpKind.genOp _ _ reloadOk =>
      if reloadOk j then
        match s.currentModelId with
        | some c =>
          { s with engine := some c, tasks := setPc s.tasks t (Pc.retryLoop j),
                   events := s.events ++ [Ev.callEnd t] }
        | none =>
          releaseStep { s with failed := true, tasks := setPc s.tasks t (Pc.done false),
                               events := s.events ++ [Ev.callEnd t, Ev.rel t] }
      else
        releaseStep { s with failed := true, tasks := setPc s.tasks t (Pc.done false),
                             events := s.events ++ [Ev.callEnd t, Ev.rel t] }
    | OpKind.initOp _ _ _ => s
  | Pc.done _ => s

/-- Run a schedule (a sequence of task resumptions). -/
def exec (sched : List Nat) (s : Sys) : Sys :=
  sched.foldl stepTask s

/-- Initial session state: the constructor (line 84-98) stores the
remembered model id; the engine handle is `null`, the lock free, and
every listed task is at its first suspension point.  Unlisted task ids
are inert finished placeholders. -/
def initSys (kinds : List OpKind) (modelId0 : Option String) : Sys :=
  { lock := false
    queue := []
    engine := none
    currentModelId := modelId0
    tasks := fun t =>
      match kinds.get? t with
      | some k => { kind := k, pc := Pc.start }
      | none => { kind := OpKind.genOp 0 (fun _ => false) (fun _ => false), pc := Pc.done true }
    events := []
    failed := false }

/-- Program counters that hold the mutex and run the critical section
body. -/
def Pc.isHolderPc : Pc → Bool
  | Pc.body => true
  | Pc.awaitCreate _ => true
  | Pc.awaitReload _ => true
  | Pc.retryLoop _ => true
  | Pc.awaitFunc _ => true
  | Pc.awaitRetryReload _ => true
  | _ => false

/-- Holder counters together with the resumed-but-not-yet-re-entered
phase: while a task is `entering`, the `#lock` flag is still set and
the lock is morally its. -/
def Pc.isHolderishPc : Pc → Bool
  | Pc.entering => true
  | p => p.isHolderPc

/-- Program counters with a backend call in flight against the engine
handle: initialization, reload (either path) or a completion attempt. -/
def Pc.isEngineBusyPc : Pc → Bool
  | Pc.awaitCreate _ => true
  | Pc.awaitReload _ => true
  | Pc.awaitFunc _ => true
  | Pc.awaitRetryReload _ => true
  | _ => false

/-- Check that an event trace is a serial sequence of
acquire/calls/release blocks: every `callStart`/`callEnd`/`rel` belongs
to the task of the innermost unmatched `acq`.  Returns the owner of
the open block (`some none` = between blocks) or `none` if the trace
interleaves. -/
def serialCheck : Option Nat → List Ev → Option (Option Nat)
  | h, [] => some h
  | none, Ev.acq t :: evs => serialCheck (some t) evs
  | none, Ev.callStart _ :: _ => none
  | none, Ev.callEnd _ :: _ => none
  | none, Ev.rel _ :: _ => none
  | some _, Ev.acq _ :: _ => none
  | some t, Ev.callStart u :: evs => if u = t then serialCheck (some t) evs else none
  | some t, Ev.callEnd u :: evs => if u = t then serialCheck (some t) evs else none
  | some t, Ev.rel u :: evs => if u = t then serialCheck none evs else none

/-- A concrete pair of operations against one session: initialize model
`"a"` (create succeeds), then switch to model `"b"` whose
`engine.reload` call fails. -/
def reloadFailKinds : List OpKind :=
  [OpKind.initOp (some "a") true true, OpKind.initOp (some "b") true false]

/-- The session state while the second operation's `engine.reload("b")`
is still in flight (task 0 ran to completion, task 1 acquired the lock,
ran its body and is suspended in the reload call). -/
def reloadFailMid : Sys := exec [0, 0, 0, 1, 1] (initSys reloadFailKinds none)

/-- The session state after the failed reload completed and the lock
was released. -/
def reloadFailEnd : Sys := exec [0, 0, 0, 1, 1, 1] (initSys reloadFailKinds none)

/-- A two-entry registry carrying the ids of `reloadFailKinds`. -/
def reloadFailRegistry : List ModelRecord :=
  [ModelRecord.mk "a" 1024 none, ModelRecord.mk "b" 2048 none]

/-- Lock part of the reachable-state invariant: at most one task is in
(or re-entering) the critical section, a free lock means nobody is in
it and nobody waits, the queue holds exactly parked tasks without
duplicates, and the ghost trace is serial with the current holder
owning the open block. -/
structure LockInv (s : Sys) : Prop where
  uniq : ∀ t₁ t₂, (s.tasks t₁).pc.isHolderishPc = true →
    (s.tasks t₂).pc.isHolderishPc = true → t₁ = t₂
  freeAll : s.lock = false → ∀ t, (s.tasks t).pc.isHolderishPc = false
  freeQueue : s.lock = false → s.queue = []
  qWaiting : ∀ t ∈ s.queue, (s.tasks t).pc = Pc.waiting
  qNodup : s.queue.Nodup
  serial : ∃ h, serialCheck none s.events = some h ∧
    ∀ t, h = some t ↔ (s.tasks t).pc.isHolderPc = true

/-- Model part of the invariant (invariant I2 of the spec, corrected):
as long as no backend create/reload call has failed, a task awaiting
`CreateMLCEngine(m)` or `engine.reload(m)` has already published `m`
in `#currentModelId` (the source assigns before awaiting, lines 184 and
191), and a resident engine matches `#currentModelId` unless an
`engine.reload` is still in flight. -/
def ModelInv (s : Sys) : Prop :=
  s.failed = false →
    (∀ t m, (s.tasks t).pc = Pc.awaitCreate m → s.engine = none ∧ s.currentModelId = some m) ∧
    (∀ t m, (s.tasks t).pc = Pc.awaitReload m → s.currentModelId = some m) ∧
    (∀ r, s.engine = some r →
      s.currentModelId = some r ∨ ∃ t m, (s.tasks t).pc = Pc.awaitReload m)

/-- The full reachable-state invariant. -/
def SysInv (s : Sys) : Prop := LockInv s ∧ ModelInv s

theorem setPc_pc_same (f : Nat → Task) (t : Nat) (p : Pc) : ((setPc f t p) t).pc = p := by
  simp [setPc]

theorem setPc_pc_ne (f : Nat → Task) {u t : Nat} (h : u ≠ t) (p : Pc) :
    ((setPc f t p) u).pc = (f u).pc := by
  simp [setPc, Function.update_noteq h]

theorem setPc_kind (f : Nat → Task) (t u : Nat) (p : Pc) :
    ((setPc f t p) u).kind = (f u).kind := by
  by_cases h : u = t
  · subst h; simp [setPc]
  · simp [setPc, Function.update_noteq h]

theorem serialCheck_append (h : Option Nat) (xs ys : List Ev) :
    serialCheck h (xs ++ ys) = (serialCheck h xs).bind (fun h' => serialCheck h' ys) := by
  induction xs generalizing h with
  | nil => simp [serialCheck]
  | cons e xs ih =>
    cases h with
    | none =>
      cases e with
      | acq t => simpa [serialCheck] using ih (some t)
      | callStart u => simp [serialCheck]
      | callEnd u => simp [serialCheck]
      | rel u => simp [serialCheck]
    | some t =>
      cases e with
      | acq u => simp [serialCheck]
      | callStart u =>
        by_cases hu : u = t <;> simp [serialCheck, hu, ih]
      | callEnd u =>
        by_cases hu : u = t <;> simp [serialCheck, hu, ih]
      | rel u =>
        by_cases hu : u = t <;> simp [serialCheck, hu, ih]

theorem bodyPc_isHolderPc (k : OpKind) : (bodyPc k).isHolderPc = true := by
  cases k <;> simp [bodyPc, Pc.isHolderPc]

theorem isHolderish_of_isHolder {p : Pc} (h : p.isHolderPc = true) :
    p.isHolderishPc = true := by
  cases p <;> simp_all [Pc.isHolderPc, Pc.isHolderishPc]

theorem lock_true_of_holderish {s : Sys} (hL : LockInv s) {t : Nat}
    (h : (s.tasks t).pc.isHolderishPc = true) : s.lock = true := by
  cases hl : s.lock
  · have := hL.freeAll hl t
    rw [h] at this
    exact absurd this (by simp)
  · rfl

theorem serial_some_of_holder {s : Sys} (hL : LockInv s) {t : Nat}
    (ht : (s.tasks t).pc.isHolderPc = true) :
    serialCheck none s.events = some (some t) := by
  obtain ⟨h, hsc, hchar⟩ := hL.serial
  have : h = some t := (hchar t).mpr ht
  exact this ▸ hsc

theorem serial_none_of_no_holder {s : Sys} (hL : LockInv s)
    (hno : ∀ t, (s.tasks t).pc.isHolderPc = false) :
    serialCheck none s.events = some none := by
  obtain ⟨h, hsc, hchar⟩ := hL.serial
  cases h with
  | none => exact hsc
  | some t =>
    have := (hchar t).mp rfl
    rw [hno t] at this
    exact absurd this (by simp)

theorem lockInv_acquire (s : Sys) (t : Nat) (hL : LockInv s) (hlock : s.lock = false) :
    LockInv ({ s with
                lock := true
                tasks := setPc s.tasks t (bodyPc (s.tasks t).kind)
                events := s.events ++ [Ev.acq t] }) := by
  have hnoish := hL.freeAll hlock
  have hq0 := hL.freeQueue hlock
  have hnoh : ∀ u, (s.tasks u).pc.isHolderPc = false := by
    intro u
    cases h' : (s.tasks u).pc.isHolderPc
    · rfl
    · have h'' := isHolderish_of_isHolder h'
      rw [hnoish u] at h''
      cases h''
  have hser : serialCheck none (s.events ++ [Ev.acq t]) = some (some t) := by
    rw [serialCheck_append, serial_none_of_no_holder hL hnoh]
    simp [serialCheck]
  have honly : ∀ u, ((setPc s.tasks t (bodyPc (s.tasks t).kind)) u).pc.isHolderishPc = true →
      u = t := by
    intro u h'
    by_cases hu : u = t
    · exact hu
    · rw [setPc_pc_ne _ hu] at h'
      rw [hnoish u] at h'
      cases h'
  exact {
    uniq := fun u₁ u₂ h1 h2 => (honly u₁ h1).trans (honly u₂ h2).symm
    freeAll := fun hl => absurd hl (by simp)
    freeQueue := fun hl => absurd hl (by simp)
    qWaiting := fun u hu => by rw [hq0] at hu; exact absurd hu (List.not_mem_nil u)
    qNodup := hL.qNodup
    serial := ⟨some t, hser, fun u => by
      constructor
      · intro hh
        have hut : u = t := by injection hh with hh'; exact hh'.symm
        subst hut
        rw [setPc_pc_same]
        exact bodyPc_isHolderPc _
      · intro h'
        rw [honly u (isHolderish_of_isHolder h')]⟩ }

theorem lockInv_enter (s : Sys) (t : Nat) (hL : LockInv s)
    (ht : (s.tasks t).pc = Pc.entering) :
    LockInv ({ s with
                lock := true
                tasks := setPc s.tasks t (bodyPc (s.tasks t).kind)
                events := s.events ++ [Ev.acq t] }) := by
  have htish : (s.tasks t).pc.isHolderishPc = true := by rw [ht]; rfl
  have hnoh : ∀ u, (s.tasks u).pc.isHolderPc = false := by
    intro u
    cases h' : (s.tasks u).pc.isHolderPc
    · rfl
    · have hu := hL.uniq u t (isHolderish_of_isHolder h') htish
      rw [hu, ht] at h'
      cases h'
  have hser : serialCheck none (s.events ++ [Ev.acq t]) = some (some t) := by
    rw [serialCheck_append, serial_none_of_no_holder hL hnoh]
    simp [serialCheck]
  have honly : ∀ u, ((setPc s.tasks t (bodyPc (s.tasks t).kind)) u).pc.isHolderishPc = true →
      u = t := by
    intro u h'
    by_cases hu : u = t
    · exact hu
    · rw [setPc_pc_ne _ hu] at h'
      exact hL.uniq u t h' htish
  exact {
    uniq := fun u₁ u₂ h1 h2 => (honly u₁ h1).trans (honly u₂ h2).symm
    freeAll := fun hl => absurd hl (by simp)
    freeQueue := fun hl => absurd hl (by simp)
    qWaiting := fun u hu => by
      have hw := hL.qWaiting u hu
      have hut : u ≠ t := by
        intro hh
        rw [hh, ht] at hw
        cases hw
      rw [setPc_pc_ne _ hut]
      exact hw
    qNodup := hL.qNodup
    serial := ⟨some t, hser, fun u => by
      constructor
      · intro hh
        have hut : u = t := by injection hh with hh'; exact hh'.symm
        subst hut
        rw [setPc_pc_same]
        exact bodyPc_isHolderPc _
      · intro h'
        rw [honly u (isHolderish_of_isHolder h')]⟩ }

theorem lockInv_defer (s : Sys) (t : Nat) (hL : LockInv s)
    (ht : (s.tasks t).pc = Pc.start) (hlock : s.lock = true) :
    LockInv ({ s with queue := s.queue ++ [t], tasks := setPc s.tasks t Pc.waiting }) := by
  have htnotq : t ∉ s.queue := by
    intro hmem
    have := hL.qWaiting t hmem
    rw [ht] at this
    cases this
  have hpres : ∀ u, ((setPc s.tasks t Pc.waiting) u).pc.isHolderishPc =
      (s.tasks u).pc.isHolderishPc := by
    intro u
    by_cases hu : u = t
    · subst hu
      rw [setPc_pc_same, ht]
      rfl
    · rw [setPc_pc_ne _ hu]
  have hpresH : ∀ u, ((setPc s.tasks t Pc.waiting) u).pc.isHolderPc =
      (s.tasks u).pc.isHolderPc := by
    intro u
    by_cases hu : u = t
    · subst hu
      rw [setPc_pc_same, ht]
      rfl
    · rw [setPc_pc_ne _ hu]
  exact {
    uniq := fun u₁ u₂ h1 h2 =>
      hL.uniq u₁ u₂ (by rw [← hpres u₁]; exact h1) (by rw [← hpres u₂]; exact h2)
    freeAll := fun hl => absurd hl (by simp [hlock])
    freeQueue := fun hl => absurd hl (by simp [hlock])
    qWaiting := fun u hu => by
      rcases List.mem_append.mp hu with hu' | hu'
      · have hw := hL.qWaiting u hu'
        have hut : u ≠ t := fun hh => htnotq (hh ▸ hu')
        rw [setPc_pc_ne _ hut]
        exact hw
      · have hut : u = t := by simpa using hu'
        subst hut
        rw [setPc_pc_same]
    qNodup := by
      rw [List.nodup_append]
      exact ⟨hL.qNodup, List.nodup_singleton t, by
        intro a ha hb
        have : a = t := by simpa using hb
        exact htnotq (this ▸ ha)⟩
    serial := by
      obtain ⟨h, hsc, hchar⟩ := hL.serial
      exact ⟨h, hsc, fun u => by rw [hpresH u]; exact hchar u⟩ }

theorem lockInv_continue (s : Sys) (t : Nat) (p : Pc) (evs : List Ev)
    (e c : Option String) (f : Bool) (hL : LockInv s)
    (ht : (s.tasks t).pc.isHolderPc = true) (hp : p.isHolderPc = true)
    (hevs : serialCheck (some t) evs = some (some t)) :
    LockInv ({ s with
                engine := e
                currentModelId := c
                failed := f
                tasks := setPc s.tasks t p
                events := s.events ++ evs }) := by
  have htish := isHolderish_of_isHolder ht
  have hlock := lock_true_of_holderish hL htish
  have hser : serialCheck none (s.events ++ evs) = some (some t) := by
    rw [serialCheck_append, serial_some_of_holder hL ht]
    simpa using hevs
  have honly : ∀ u, ((setPc s.tasks t p) u).pc.isHolderishPc = true → u = t := by
    intro u h'
    by_cases hu : u = t
    · exact hu
    · rw [setPc_pc_ne _ hu] at h'
      exact hL.uniq u t h' htish
  exact {
    uniq := fun u₁ u₂ h1 h2 => (honly u₁ h1).trans (honly u₂ h2).symm
    freeAll := fun hl => absurd hl (by simp [hlock])
    freeQueue := fun hl => absurd hl (by simp [hlock])
    qWaiting := fun u hu => by
      have hw := hL.qWaiting u hu
      have hut : u ≠ t := by
        intro hh
        rw [hh] at hw
        rw [hw] at ht
        cases ht
      rw [setPc_pc_ne _ hut]
      exact hw
    qNodup := hL.qNodup
    serial := ⟨some t, hser, fun u => by
      constructor
      · intro hh
        have hut : u = t := by injection hh with hh'; exact hh'.symm
        subst hut
        rw [setPc_pc_same]
        exact hp
      · intro h'
        rw [honly u (isHolderish_of_isHolder h')]⟩ }

theorem lockInv_finish (s : Sys) (t : Nat) (ok : Bool) (evs : List Ev)
    (e c : Option String) (f : Bool) (hL : LockInv s)
    (ht : (s.tasks t).pc.isHolderPc = true)
    (hevs : serialCheck (some t) evs = some none) :
    LockInv (releaseStep ({ s with
                             engine := e
                             currentModelId := c
                             failed := f
                             tasks := setPc s.tasks t (Pc.done ok)
                             events := s.events ++ evs })) := by
  have htish := isHolderish_of_isHolder ht
  have hlock := lock_true_of_holderish hL htish
  have hser : serialCheck none (s.events ++ evs) = some none := by
    rw [serialCheck_append, serial_some_of_holder hL ht]
    simpa using hevs
  have hT1none : ∀ u, ((setPc s.tasks t (Pc.done ok)) u).pc.isHolderishPc = true → False := by
    intro u h'
    by_cases hu : u = t
    · subst hu
      rw [setPc_pc_same] at h'
      cases h'
    · rw [setPc_pc_ne _ hu] at h'
      exact hu (hL.uniq u t h' htish)
  have hsplit : s.queue = [] ∨ ∃ r rest, s.queue = r :: rest := by
    cases s.queue with
    | nil => exact Or.inl rfl
    | cons a l => exact Or.inr ⟨a, l, rfl⟩
  rcases hsplit with hq | ⟨r, rest, hq⟩
  · have hstep : releaseStep ({ s with
                                 engine := e
                                 currentModelId := c
                                 failed := f
                                 tasks := setPc s.tasks t (Pc.done ok)
                                 events := s.events ++ evs }) =
        ({ s with
           engine := e
           currentModelId := c
           failed := f
           tasks := setPc s.tasks t (Pc.done ok)
           events := s.events ++ evs
           lock := false }) := by
      simp [releaseStep, hq]
    rw [hstep]
    exact {
      uniq := fun u₁ u₂ h1 _ => (hT1none u₁ h1).elim
      freeAll := fun _ u => by
        cases h' : ((setPc s.tasks t (Pc.done ok)) u).pc.isHolderishPc
        · rfl
        · exact (hT1none u h').elim
      freeQueue := fun _ => hq
      qWaiting := fun u hu => by
        rw [hq] at hu
        exact absurd hu (List.not_mem_nil u)
      qNodup := hL.qNodup
      serial := ⟨none, hser, fun u => by
        constructor
        · intro hh
          cases hh
        · intro h'
          exact (hT1none u (isHolderish_of_isHolder h')).elim⟩ }
  · have hrmem : r ∈ s.queue := by rw [hq]; exact List.mem_cons_self r rest
    have hrw : (s.tasks r).pc = Pc.waiting := hL.qWaiting r hrmem
    have hrt : r ≠ t := by
      intro hh
      rw [hh] at hrw
      rw [hrw] at ht
      cases ht
    have hnotin : r ∉ rest := by
      have hn := hL.qNodup
      rw [hq] at hn
      exact (List.nodup_cons.mp hn).1
    have hstep : releaseStep ({ s with
                                 engine := e
                                 currentModelId := c
                                 failed := f
                                 tasks := setPc s.tasks t (Pc.done ok)
                                 events := s.events ++ evs }) =
        ({ s with
           engine := e
           currentModelId := c
           failed := f
           tasks := setPc (setPc s.tasks t (Pc.done ok)) r Pc.entering
           events := s.events ++ evs
           queue := rest }) := by
      simp [releaseStep, hq]
    rw [hstep]
    have hT2 : ∀ u,
        ((setPc (setPc s.tasks t (Pc.done ok)) r Pc.entering) u).pc.isHolderishPc = true →
        u = r := by
      intro u h'
      by_cases hur : u = r
      · exact hur
      · rw [setPc_pc_ne _ hur] at h'
        exact (hT1none u h').elim
    exact {
      uniq := fun u₁ u₂ h1 h2 => (hT2 u₁ h1).trans (hT2 u₂ h2).symm
      freeAll := fun hl => absurd hl (by simp [hlock])
      freeQueue := fun hl => absurd hl (by simp [hlock])
      qWaiting := fun u hu => by
        have humem : u ∈ s.queue := by rw [hq]; exact List.mem_cons_of_mem r hu
        have hw := hL.qWaiting u humem
        have hut : u ≠ t := by
          intro hh
          rw [hh] at hw
          rw [hw] at ht
          cases ht
        have hur : u ≠ r := fun hh => hnotin (hh ▸ hu)
        rw [setPc_pc_ne _ hur, setPc_pc_ne _ hut]
        exact hw
      qNodup := by
        have hn := hL.qNodup
        rw [hq] at hn
        exact (List.nodup_cons.mp hn).2
      serial := ⟨none, hser, fun u => by
        constructor
        · intro hh
          cases hh
        · intro h'
          exfalso
          have hu := hT2 u (isHolderish_of_isHolder h')
          subst hu
          rw [setPc_pc_same] at h'
          cases h'⟩ }

theorem modelInv_untouched (s s' : Sys)
    (he : s'.engine = s.engine) (hc : s'.currentModelId = s.currentModelId)
    (hf : s'.failed = s.failed)
    (hAC : ∀ u m, (s'.tasks u).pc = Pc.awaitCreate m → (s.tasks u).pc = Pc.awaitCreate m)
    (hAR : ∀ u m, (s'.tasks u).pc = Pc.awaitReload m → (s.tasks u).pc = Pc.awaitReload m)
    (hAR2 : ∀ u m, (s.tasks u).pc = Pc.awaitReload m → ∃ m', (s'.tasks u).pc = Pc.awaitReload m')
    (hM : ModelInv s) : ModelInv s' := by
  intro hfail
  rw [hf] at hfail
  obtain ⟨h1, h2, h3⟩ := hM hfail
  refine ⟨?_, ?_, ?_⟩
  · intro u m hpc
    have h := h1 u m (hAC u m hpc)
    rw [he, hc]
    exact h
  · intro u m hpc
    rw [hc]
    exact h2 u m (hAR u m hpc)
  · intro r hr
    rw [he] at hr
    rcases h3 r hr with hl | ⟨u, m, hu⟩
    · left
      rw [hc]
      exact hl
    · right
      obtain ⟨m', hm'⟩ := hAR2 u m hu
      exact ⟨u, m', hm'⟩

theorem setPc_untouched_conds (f : Nat → Task) (t : Nat) (p : Pc)
    (hnotAC : ∀ m, p ≠ Pc.awaitCreate m) (hnotAR : ∀ m, p ≠ Pc.awaitReload m)
    (hold : ∀ m, (f t).pc ≠ Pc.awaitReload m) :
    (∀ u m, ((setPc f t p) u).pc = Pc.awaitCreate m → (f u).pc = Pc.awaitCreate m) ∧
    (∀ u m, ((setPc f t p) u).pc = Pc.awaitReload m → (f u).pc = Pc.awaitReload m) ∧
    (∀ u m, (f u).pc = Pc.awaitReload m → ∃ m', ((setPc f t p) u).pc = Pc.awaitReload m') := by
  refine ⟨?_, ?_, ?_⟩
  · intro u m hpc
    by_cases hu : u = t
    · subst hu
      rw [setPc_pc_same] at hpc
      exact absurd hpc (hnotAC m)
    · rw [setPc_pc_ne _ hu] at hpc
      exact hpc
  · intro u m hpc
    by_cases hu : u = t
    · subst hu
      rw [setPc_pc_same] at hpc
      exact absurd hpc (hnotAR m)
    · rw [setPc_pc_ne _ hu] at hpc
      exact hpc
  · intro u m hpc
    by_cases hu : u = t
    · subst hu
      exact absurd hpc (hold m)
    · exact ⟨m, by rw [setPc_pc_ne _ hu]; exact hpc⟩

theorem modelInv_releaseStep {s : Sys}
    (hq : ∀ u ∈ s.queue, (s.tasks u).pc = Pc.waiting)
    (hM : ModelInv s) : ModelInv (releaseStep s) := by
  have hsplit : s.queue = [] ∨ ∃ r rest, s.queue = r :: rest := by
    cases s.queue with
    | nil => exact Or.inl rfl
    | cons a l => exact Or.inr ⟨a, l, rfl⟩
  rcases hsplit with hq0 | ⟨r, rest, hq0⟩
  · have hstep : releaseStep s = { s with lock := false } := by simp [releaseStep, hq0]
    rw [hstep]
    exact modelInv_untouched s _ rfl rfl rfl (fun _ _ h => h) (fun _ _ h => h)
      (fun u m h => ⟨m, h⟩) hM
  · have hstep : releaseStep s =
        ({ s with queue := rest, tasks := setPc s.tasks r Pc.entering }) := by
      simp [releaseStep, hq0]
    rw [hstep]
    have hrw : (s.tasks r).pc = Pc.waiting := hq r (by rw [hq0]; exact List.mem_cons_self r rest)
    obtain ⟨hAC, hAR, hAR2⟩ := setPc_untouched_conds s.tasks r Pc.entering
      (fun m h => Pc.noConfusion h) (fun m h => Pc.noConfusion h)
      (fun m h => by rw [hrw] at h; cases h)
    exact modelInv_untouched s _ rfl rfl rfl hAC hAR hAR2 hM

theorem uniq_pc_absurd {s : Sys} (hL : LockInv s) {t u : Nat} {p q : Pc}
    (hp : (s.tasks t).pc = p) (hq : (s.tasks u).pc = q)
    (hph : p.isHolderishPc = true) (hqh : q.isHolderishPc = true) (hne : p ≠ q) : False := by
  have hut : u = t := hL.uniq u t (by rw [hq]; exact hqh) (by rw [hp]; exact hph)
  rw [hut] at hq
  exact hne (hp.symm.trans hq)

theorem bodyPc_ne_AC (k : OpKind) (m : String) : bodyPc k ≠ Pc.awaitCreate m := by
  cases k <;> simp [bodyPc]

theorem bodyPc_ne_AR (k : OpKind) (m : String) : bodyPc k ≠ Pc.awaitReload m := by
  cases k <;> simp [bodyPc]

theorem no_other_AC {s : Sys} (hL : LockInv s) {t : Nat}
    (htish : (s.tasks t).pc.isHolderishPc = true) :
    ∀ u m, u ≠ t → (s.tasks u).pc = Pc.awaitCreate m → False := by
  intro u m hu hAC
  exact hu (hL.uniq u t (by rw [hAC]; rfl) htish)

theorem no_other_AR {s : Sys} (hL : LockInv s) {t : Nat}
    (htish : (s.tasks t).pc.isHolderishPc = true) :
    ∀ u m, u ≠ t → (s.tasks u).pc = Pc.awaitReload m → False := by
  intro u m hu hAR
  exact hu (hL.uniq u t (by rw [hAR]; rfl) htish)

theorem modelInv_of_failed {s' : Sys} (hf : s'.failed = true) : ModelInv s' := by
  intro hfail
  rw [hf] at hfail
  cases hfail

theorem sysInv_finish_general (s : Sys) (t : Nat) (ok : Bool) (evs : List Ev)
    (e c : Option String) (f : Bool) (hL : LockInv s)
    (ht : (s.tasks t).pc.isHolderPc = true)
    (hevs : serialCheck (some t) evs = some none)
    (hMX : ModelInv ({ s with
                       engine := e
                       currentModelId := c
                       failed := f
                       tasks := setPc s.tasks t (Pc.done ok)
                       events := s.events ++ evs })) :
    SysInv (releaseStep ({ s with
                           engine := e
                           currentModelId := c
                           failed := f
                           tasks := setPc s.tasks t (Pc.done ok)
                           events := s.events ++ evs })) := by
  constructor
  · exact lockInv_finish s t ok evs e c f hL ht hevs
  · refine modelInv_releaseStep ?_ hMX
    intro u hu
    have hw := hL.qWaiting u hu
    have hut : u ≠ t := by
      intro hh
      rw [hh] at hw
      rw [hw] at ht
      simp [Pc.isHolderPc] at ht
    rw [setPc_pc_ne _ hut]
    exact hw

theorem sysInv_step_start (s : Sys) (t : Nat) (hL : LockInv s) (hM : ModelInv s)
    (hpc : (s.tasks t).pc = Pc.start) : SysInv (stepTask s t) := by
  simp only [stepTask, hpc]
  by_cases hlk : s.lock = true
  · rw [if_pos hlk]
    refine ⟨lockInv_defer s t hL hpc hlk, ?_⟩
    obtain ⟨hAC, hAR, hAR2⟩ := setPc_untouched_conds s.tasks t Pc.waiting
      (fun m hh => Pc.noConfusion hh) (fun m hh => Pc.noConfusion hh)
      (fun m hh => by rw [hpc] at hh; cases hh)
    exact modelInv_untouched s _ rfl rfl rfl hAC hAR hAR2 hM
  · rw [if_neg hlk]
    have hlk' : s.lock = false := by simpa using hlk
    refine ⟨lockInv_acquire s t hL hlk', ?_⟩
    obtain ⟨hAC, hAR, hAR2⟩ := setPc_untouched_conds s.tasks t (bodyPc (s.tasks t).kind)
      (bodyPc_ne_AC _) (bodyPc_ne_AR _)
      (fun m hh => by rw [hpc] at hh; cases hh)
    exact modelInv_untouched s _ rfl rfl rfl hAC hAR hAR2 hM

theorem sysInv_step_waiting (s : Sys) (t : Nat) (hL : LockInv s) (hM : ModelInv s)
    (hpc : (s.tasks t).pc = Pc.waiting) : SysInv (stepTask s t) := by
  simp only [stepTask, hpc]
  exact ⟨hL, hM⟩

theorem sysInv_step_entering (s : Sys) (t : Nat) (hL : LockInv s) (hM : ModelInv s)
    (hpc : (s.tasks t).pc = Pc.entering) : SysInv (stepTask s t) := by
  simp only [stepTask, hpc]
  refine ⟨lockInv_enter s t hL hpc, ?_⟩
  obtain ⟨hAC, hAR, hAR2⟩ := setPc_untouched_conds s.tasks t (bodyPc (s.tasks t).kind)
    (bodyPc_ne_AC _) (bodyPc_ne_AR _)
    (fun m hh => by rw [hpc] at hh; cases hh)
  exact modelInv_untouched s _ rfl rfl rfl hAC hAR hAR2 hM

theorem sysInv_step_done (s : Sys) (t : Nat) (hL : LockInv s) (hM : ModelInv s)
    (ok : Bool) (hpc : (s.tasks t).pc = Pc.done ok) : SysInv (stepTask s t) := by
  simp only [stepTask, hpc]
  exact ⟨hL, hM⟩

theorem sysInv_step_body (s : Sys) (t : Nat) (hL : LockInv s) (hM : ModelInv s)
    (hpc : (s.tasks t).pc = Pc.body) : SysInv (stepTask s t) := by
  have ht : (s.tasks t).pc.isHolderPc = true := by rw [hpc]; rfl
  have htish : (s.tasks t).pc.isHolderishPc = true := by rw [hpc]; rfl
  simp only [stepTask, hpc]
  cases hk : (s.tasks t).kind with
  | genOp maxRetries funcOk reloadOk => exact ⟨hL, hM⟩
  | initOp target createOk reloadOk =>
    simp only []
    cases hres : resolveTarget target s.currentModelId with
    | none =>
      simp only []
      refine sysInv_finish_general s t false [Ev.rel t] s.engine s.currentModelId s.failed hL ht
        (by simp [serialCheck]) ?_
      obtain ⟨hAC, hAR, hAR2⟩ := setPc_untouched_conds s.tasks t (Pc.done false)
        (fun m hh => Pc.noConfusion hh) (fun m hh => Pc.noConfusion hh)
        (fun m hh => by rw [hpc] at hh; cases hh)
      exact modelInv_untouched s _ rfl rfl rfl hAC hAR hAR2 hM
    | some m =>
      simp only []
      by_cases heng : s.engine = none
      · rw [if_pos heng]
        constructor
        · exact lockInv_continue s t (Pc.awaitCreate m) [Ev.callStart t] s.engine (some m)
            s.failed hL ht rfl (by simp [serialCheck])
        · intro hfail
          obtain ⟨h1, h2, h3⟩ := hM hfail
          refine ⟨?_, ?_, ?_⟩
          · intro u m' hh
            by_cases hu : u = t
            · subst hu
              rw [setPc_pc_same] at hh
              injection hh with hmm
              subst hmm
              exact ⟨heng, rfl⟩
            · rw [setPc_pc_ne _ hu] at hh
              exact absurd hh (fun hh' => no_other_AC hL htish u m' hu hh')
          · intro u m' hh
            by_cases hu : u = t
            · subst hu
              rw [setPc_pc_same] at hh
              cases hh
            · rw [setPc_pc_ne _ hu] at hh
              exact absurd hh (fun hh' => no_other_AR hL htish u m' hu hh')
          · intro r hr
            rw [show ({ s with
                        engine := s.engine
                        currentModelId := some m
                        tasks := setPc s.tasks t (Pc.awaitCreate m)
                        events := s.events ++ [Ev.callStart t] } : Sys).engine = s.engine
                  from rfl, heng] at hr
            cases hr
      · rw [if_neg heng]
        by_cases hcm : s.currentModelId = some m
        · rw [if_neg (not_not_intro hcm)]
          refine sysInv_finish_general s t true [Ev.rel t] s.engine s.currentModelId s.failed hL
            ht (by simp [serialCheck]) ?_
          obtain ⟨hAC, hAR, hAR2⟩ := setPc_untouched_conds s.tasks t (Pc.done true)
            (fun m' hh => Pc.noConfusion hh) (fun m' hh => Pc.noConfusion hh)
            (fun m' hh => by rw [hpc] at hh; cases hh)
          exact modelInv_untouched s _ rfl rfl rfl hAC hAR hAR2 hM
        · rw [if_pos hcm]
          constructor
          · exact lockInv_continue s t (Pc.awaitReload m) [Ev.callStart t] s.engine (some m)
              s.failed hL ht rfl (by simp [serialCheck])
          · intro hfail
            refine ⟨?_, ?_, ?_⟩
            · intro u m' hh
              by_cases hu : u = t
              · subst hu
                rw [setPc_pc_same] at hh
                cases hh
              · rw [setPc_pc_ne _ hu] at hh
                exact absurd hh (fun hh' => no_other_AC hL htish u m' hu hh')
            · intro u m' hh
              by_cases hu : u = t
              · subst hu
                rw [setPc_pc_same] at hh
                injection hh with hmm
                subst hmm
                rfl
              · rw [setPc_pc_ne _ hu] at hh
                exact absurd hh (fun hh' => no_other_AR hL htish u m' hu hh')
            · intro r hr
              exact Or.inr ⟨t, m, by rw [setPc_pc_same]⟩

theorem sysInv_step_awaitCreate (s : Sys) (t : Nat) (hL : LockInv s) (hM : ModelInv s)
    (m : String) (hpc : (s.tasks t).pc = Pc.awaitCreate m) : SysInv (stepTask s t) := by
  have ht : (s.tasks t).pc.isHolderPc = true := by rw [hpc]; rfl
  have htish : (s.tasks t).pc.isHolderishPc = true := by rw [hpc]; rfl
  simp only [stepTask, hpc]
  cases hk : (s.tasks t).kind with
  | genOp maxRetries funcOk reloadOk => exact ⟨hL, hM⟩
  | initOp target createOk reloadOk =>
    simp only []
    by_cases hco : createOk = true
    · rw [if_pos hco]
      refine sysInv_finish_general s t true [Ev.callEnd t, Ev.rel t] (some m) s.currentModelId
        s.failed hL ht (by simp [serialCheck]) ?_
      intro hfail
      obtain ⟨h1, h2, h3⟩ := hM hfail
      refine ⟨?_, ?_, ?_⟩
      · intro u m' hh
        by_cases hu : u = t
        · subst hu
          rw [setPc_pc_same] at hh
          cases hh
        · rw [setPc_pc_ne _ hu] at hh
          exact absurd hh (fun hh' => no_other_AC hL htish u m' hu hh')
      · intro u m' hh
        by_cases hu : u = t
        · subst hu
          rw [setPc_pc_same] at hh
          cases hh
        · rw [setPc_pc_ne _ hu] at hh
          exact absurd hh (fun hh' => no_other_AR hL htish u m' hu hh')
      · intro r hr
        have hr' : m = r := by injection hr
        subst hr'
        exact Or.inl (h1 t m hpc).2
    · rw [if_neg hco]
      exact sysInv_finish_general s t false [Ev.callEnd t, Ev.rel t] s.engine s.currentModelId
        true hL ht (by simp [serialCheck]) (modelInv_of_failed rfl)

theorem sysInv_step_awaitReload (s : Sys) (t : Nat) (hL : LockInv s) (hM : ModelInv s)
    (m : String) (hpc : (s.tasks t).pc = Pc.awaitReload m) : SysInv (stepTask s t) := by
  have ht : (s.tasks t).pc.isHolderPc = true := by rw [hpc]; rfl
  have htish : (s.tasks t).pc.isHolderishPc = true := by rw [hpc]; rfl
  simp only [stepTask, hpc]
  cases hk : (s.tasks t).kind with
  | genOp maxRetries funcOk reloadOk => exact ⟨hL, hM⟩
  | initOp target createOk reloadOk =>
    simp only []
    by_cases hro : reloadOk = true
    · rw [if_pos hro]
      refine sysInv_finish_general s t true [Ev.callEnd t, Ev.rel t] (some m) s.currentModelId
        s.failed hL ht (by simp [serialCheck]) ?_
      intro hfail
      obtain ⟨h1, h2, h3⟩ := hM hfail
      refine ⟨?_, ?_, ?_⟩
      · intro u m' hh
        by_cases hu : u = t
        · subst hu
          rw [setPc_pc_same] at hh
          cases hh
        · rw [setPc_pc_ne _ hu] at hh
          exact absurd hh (fun hh' => no_other_AC hL htish u m' hu hh')
      · intro u m' hh
        by_cases hu : u = t
        · subst hu
          rw [setPc_pc_same] at hh
          cases hh
        · rw [setPc_pc_ne _ hu] at hh
          exact absurd hh (fun hh' => no_other_AR hL htish u m' hu hh')
      · intro r hr
        have hr' : m = r := by injection hr
        subst hr'
        exact Or.inl (h2 t m hpc)
    · rw [if_neg hro]
      exact sysInv_finish_general s t false [Ev.callEnd t, Ev.rel t] s.engine s.currentModelId
        true hL ht (by simp [serialCheck]) (modelInv_of_failed rfl)

theorem sysInv_step_retryLoop (s : Sys) (t : Nat) (hL : LockInv s) (hM : ModelInv s)
    (i : Nat) (hpc : (s.tasks t).pc = Pc.retryLoop i) : SysInv (stepTask s t) := by
  have ht : (s.tasks t).pc.isHolderPc = true := by rw [hpc]; rfl
  have hAR3 : ∀ m, (s.tasks t).pc ≠ Pc.awaitReload m := fun m hh => by
    rw [hpc] at hh; cases hh
  simp only [stepTask, hpc]
  cases hk : (s.tasks t).kind with
  | initOp target createOk reloadOk => exact ⟨hL, hM⟩
  | genOp maxRetries funcOk reloadOk =>
    simp only []
    by_cases hi : i < maxRetries
    · rw [if_pos hi]
      cases heng : s.engine with
      | some r =>
        constructor
        · exact lockInv_continue s t (Pc.awaitFunc (i + 1)) [Ev.callStart t] (some r)
            s.currentModelId s.failed hL ht rfl (by simp [serialCheck])
        · obtain ⟨hAC, hAR, hAR2⟩ := setPc_untouched_conds s.tasks t (Pc.awaitFunc (i + 1))
            (fun m hh => Pc.noConfusion hh) (fun m hh => Pc.noConfusion hh) hAR3
          exact modelInv_untouched s _ heng.symm rfl rfl hAC hAR hAR2 hM
      | none =>
        refine sysInv_finish_general s t false [Ev.rel t] none s.currentModelId s.failed hL ht
          (by simp [serialCheck]) ?_
        obtain ⟨hAC, hAR, hAR2⟩ := setPc_untouched_conds s.tasks t (Pc.done false)
          (fun m hh => Pc.noConfusion hh) (fun m hh => Pc.noConfusion hh) hAR3
        exact modelInv_untouched s _ heng.symm rfl rfl hAC hAR hAR2 hM
    · rw [if_neg hi]
      refine sysInv_finish_general s t true [Ev.rel t] s.engine s.currentModelId s.failed hL ht
        (by simp [serialCheck]) ?_
      obtain ⟨hAC, hAR, hAR2⟩ := setPc_untouched_conds s.tasks t (Pc.done true)
        (fun m hh => Pc.noConfusion hh) (fun m hh => Pc.noConfusion hh) hAR3
      exact modelInv_untouched s _ rfl rfl rfl hAC hAR hAR2 hM

theorem sysInv_step_awaitFunc (s : Sys) (t : Nat) (hL : LockInv s) (hM : ModelInv s)
    (j : Nat) (hpc : (s.tasks t).pc = Pc.awaitFunc j) : SysInv (stepTask s t) := by
  have ht : (s.tasks t).pc.isHolderPc = true := by rw [hpc]; rfl
  have hAR3 : ∀ m, (s.tasks t).pc ≠ Pc.awaitReload m := fun m hh => by
    rw [hpc] at hh; cases hh
  simp only [stepTask, hpc]
  cases hk : (s.tasks t).kind with
  | initOp target createOk reloadOk => exact ⟨hL, hM⟩
  | genOp maxRetries funcOk reloadOk =>
    simp only []
    by_cases hfo : funcOk j = true
    · rw [if_pos hfo]
      refine sysInv_finish_general s t true [Ev.callEnd t, Ev.rel t] s.engine s.currentModelId
        s.failed hL ht (by simp [serialCheck]) ?_
      obtain ⟨hAC, hAR, hAR2⟩ := setPc_untouched_conds s.tasks t (Pc.done true)
        (fun m hh => Pc.noConfusion hh) (fun m hh => Pc.noConfusion hh) hAR3
      exact modelInv_untouched s _ rfl rfl rfl hAC hAR hAR2 hM
    · rw [if_neg hfo]
      by_cases hmr : maxRetries = 0
      · rw [if_pos hmr]
        refine sysInv_finish_general s t false [Ev.callEnd t, Ev.rel t] s.engine s.currentModelId
          s.failed hL ht (by simp [serialCheck]) ?_
        obtain ⟨hAC, hAR, hAR2⟩ := setPc_untouched_conds s.tasks t (Pc.done false)
          (fun m hh => Pc.noConfusion hh) (fun m hh => Pc.noConfusion hh) hAR3
        exact modelInv_untouched s _ rfl rfl rfl hAC hAR hAR2 hM
      · rw [if_neg hmr]
        cases heng : s.engine with
        | some r =>
          constructor
          · exact lockInv_continue s t (Pc.awaitRetryReload j) [Ev.callEnd t, Ev.callStart t]
              (some r) s.currentModelId s.failed hL ht rfl (by simp [serialCheck])
          · obtain ⟨hAC, hAR, hAR2⟩ := setPc_untouched_conds s.tasks t (Pc.awaitRetryReload j)
              (fun m hh => Pc.noConfusion hh) (fun m hh => Pc.noConfusion hh) hAR3
            exact modelInv_untouched s _ heng.symm rfl rfl hAC hAR hAR2 hM
        | none =>
          refine sysInv_finish_general s t false [Ev.callEnd t, Ev.rel t] none s.currentModelId
            s.failed hL ht (by simp [serialCheck]) ?_
          obtain ⟨hAC, hAR, hAR2⟩ := setPc_untouched_conds s.tasks t (Pc.done false)
            (fun m hh => Pc.noConfusion hh) (fun m hh => Pc.noConfusion hh) hAR3
          exact modelInv_untouched s _ heng.symm rfl rfl hAC hAR hAR2 hM

theorem sysInv_step_awaitRetryReload (s : Sys) (t : Nat) (hL : LockInv s) (hM : ModelInv s)
    (j : Nat) (hpc : (s.tasks t).pc = Pc.awaitRetryReload j) : SysInv (stepTask s t) := by
  have ht : (s.tasks t).pc.isHolderPc = true := by rw [hpc]; rfl
  have htish : (s.tasks t).pc.isHolderishPc = true := by rw [hpc]; rfl
  simp only [stepTask, hpc]
  cases hk : (s.tasks t).kind with
  | initOp target createOk reloadOk => exact ⟨hL, hM⟩
  | genOp maxRetries funcOk reloadOk =>
    simp only []
    by_cases hro : reloadOk j = true
    · rw [if_pos hro]
      cases hcm : s.currentModelId with
      | some c =>
        constructor
        · exact lockInv_continue s t (Pc.retryLoop j) [Ev.callEnd t] (some c) (some c)
            s.failed hL ht rfl (by simp [serialCheck])
        · intro hfail
          refine ⟨?_, ?_, ?_⟩
          · intro u m' hh
            by_cases hu : u = t
            · subst hu
              rw [setPc_pc_same] at hh
              cases hh
            · rw [setPc_pc_ne _ hu] at hh
              exact absurd hh (fun hh' => no_other_AC hL htish u m' hu hh')
          · intro u m' hh
            by_cases hu : u = t
            · subst hu
              rw [setPc_pc_same] at hh
              cases hh
            · rw [setPc_pc_ne _ hu] at hh
              exact absurd hh (fun hh' => no_other_AR hL htish u m' hu hh')
          · intro r hr
            have hr' : c = r := by injection hr
            subst hr'
            exact Or.inl rfl
      | none =>
        exact sysInv_finish_general s t false [Ev.callEnd t, Ev.rel t] s.engine none
          true hL ht (by simp [serialCheck]) (modelInv_of_failed rfl)
    · rw [if_neg hro]
      exact sysInv_finish_general s t false [Ev.callEnd t, Ev.rel t] s.engine s.currentModelId
        true hL ht (by simp [serialCheck]) (modelInv_of_failed rfl)

theorem sysInv_step (s : Sys) (t : Nat) (h : SysInv s) : SysInv (stepTask s t) := by
  obtain ⟨hL, hM⟩ := h
  cases hpc : (s.tasks t).pc with
  | start => exact sysInv_step_start s t hL hM hpc
  | waiting => exact sysInv_step_waiting s t hL hM hpc
  | entering => exact sysInv_step_entering s t hL hM hpc
  | body => exact sysInv_step_body s t hL hM hpc
  | awaitCreate m => exact sysInv_step_awaitCreate s t hL hM m hpc
  | awaitReload m => exact sysInv_step_awaitReload s t hL hM m hpc
  | retryLoop i => exact sysInv_step_retryLoop s t hL hM i hpc
  | awaitFunc j => exact sysInv_step_awaitFunc s t hL hM j hpc
  | awaitRetryReload j => exact sysInv_step_awaitRetryReload s t hL hM j hpc
  | done ok => exact sysInv_step_done s t hL hM ok hpc

theorem sysInv_initSys (kinds : List OpKind) (m0 : Option String) :
    SysInv (initSys kinds m0) := by
  have hpc0 : ∀ u, ((initSys kinds m0).tasks u).pc = Pc.start ∨
      ((initSys kinds m0).tasks u).pc = Pc.done true := by
    intro u
    simp only [initSys]
    cases kinds.get? u with
    | none => exact Or.inr rfl
    | some k => exact Or.inl rfl
  have hnoish : ∀ u, ((initSys kinds m0).tasks u).pc.isHolderishPc = false := by
    intro u
    rcases hpc0 u with hh | hh <;> rw [hh] <;> rfl
  have hnoh : ∀ u, ((initSys kinds m0).tasks u).pc.isHolderPc = false := by
    intro u
    rcases hpc0 u with hh | hh <;> rw [hh] <;> rfl
  constructor
  · exact {
      uniq := fun u₁ u₂ h1 _ => by rw [hnoish u₁] at h1; cases h1
      freeAll := fun _ => hnoish
      freeQueue := fun _ => rfl
      qWaiting := fun u hu => absurd hu (List.not_mem_nil u)
      qNodup := List.nodup_nil
      serial := ⟨none, rfl, fun u => by
        constructor
        · intro hh
          cases hh
        · intro hh
          rw [hnoh u] at hh
          cases hh⟩ }
  · intro _
    refine ⟨?_, ?_, ?_⟩
    · intro u m hh
      rcases hpc0 u with hh' | hh' <;> rw [hh'] at hh <;> cases hh
    · intro u m hh
      rcases hpc0 u with hh' | hh' <;> rw [hh'] at hh <;> cases hh
    · intro r hr
      cases hr

theorem sysInv_exec (sched : List Nat) (s : Sys) (h : SysInv s) : SysInv (exec sched s) := by
  induction sched generalizing s with
  | nil => exact h
  | cons t ts ih => exact ih (stepTask s t) (sysInv_step s t h)

theorem lockRun_fifo (evs : List LockEv) : ∀ s : LockSt,
    (lockRun s evs).2.1 ++ (lockRun s evs).1.queue = s.queue ++ (lockRun s evs).2.2 := by
  induction evs with
  | nil => intro s; simp [lockRun]
  | cons e evs ih =>
    intro s
    cases e with
    | acq t =>
      by_cases hl : s.lock = true
      · simp only [lockRun, acquireLock, if_pos hl]
        rw [ih]
        simp
      · simp only [lockRun, acquireLock, if_neg hl]
        exact ih { s with lock := true }
    | rel =>
      cases hq : s.queue with
      | cons r rest =>
        simp only [lockRun, releaseLock, hq, Option.toList_some, List.singleton_append,
          List.cons_append, List.nil_append]
        rw [ih]
      | nil =>
        simp only [lockRun, releaseLock, hq]
        have := ih { s with lock := false }
        simpa [hq] using this

theorem specCumulativeTexts_cons (d : String) (ds : List String) :
    specCumulativeTexts (d :: ds) =
      (d ++ "") :: (specCumulativeTexts ds).map (fun tx => d ++ tx) := by
  unfold specCumulativeTexts
  simp only [List.length_cons, List.range_succ_eq_map, List.map_cons, List.map_map]
  rfl

theorem streamGo_spec (chunks : List StreamChunk) : ∀ acc : String,
    streamGo acc chunks = (specCumulativeTexts (chunks.map deltaContent)).map
      (fun tx => { text := acc ++ tx, swipes := [], logprobs := none }) := by
  induction chunks with
  | nil => intro acc; rfl
  | cons c cs ih =>
    intro acc
    simp only [List.map_cons, specCumulativeTexts_cons, streamGo, List.map_map]
    rw [ih (acc ++ deltaContent c)]
    congr 1
    · simp
    · apply List.map_congr_left
      intro tx _
      simp [Function.comp, String.append_assoc]

theorem getProp_append (a b : List (String × Json)) (k : String) :
    getProp (a ++ b) k = (getProp b k).orElse (fun _ => getProp a k) := by
  induction a with
  | nil =>
    simp only [List.nil_append]
    cases getProp b k <;> rfl
  | cons p rest ih =>
    obtain ⟨k', v⟩ := p
    simp only [List.cons_append, getProp, List.append_eq]
    rw [ih]
    cases getProp b k <;> rfl

/-! ### Claim theorems -/

/-- C1: the claim states that when the thunk throws on the final allowed
attempt (in particular on the single attempt of the default
`maxRetries = 1`), `#generateWithRetry` re-throws the failure and the
caller's promise rejects.  Evaluating the embedded wrapper at that
failing input (always-throwing thunk, successful recovery reload,
default bound) shows the code instead issues a reload, lets the `while`
loop exit, and resolves with `undefined` (`Except.ok none`): the
failure is silently converted into a successful result. -/
theorem generateWithRetry_default_swallows_failure :
    generateWithRetry (fun _ => (Except.error "boom" : Except String ChatCompletion))
      (fun _ => Except.ok ()) 1 =
      (Except.ok none, [RetryAct.attemptAct 1, RetryAct.reloadAct 1]) := by
  simp [generateWithRetry, retryGo]

/-- C4: with the default `maxRetries = 1` and a thunk failing on
attempt 1, the claim says the call fails after that single attempt; the
code instead performs attempt 1, issues one reload, and resolves with
`undefined` (first conjunct — the failing half of the claim).  With
`maxRetries = 2` and a thunk failing on attempt 1 and succeeding on
attempt 2, exactly one reload happens between the attempts and the
attempt-2 result is returned immediately (second conjunct — the half
the code satisfies). -/
theorem generateWithRetry_bound_behavior (e : String) (v : ChatCompletion) :
    generateWithRetry (fun j => if j = 1 then Except.error e else Except.ok v)
        (fun _ => Except.ok ()) 1 =
      (Except.ok none, [RetryAct.attemptAct 1, RetryAct.reloadAct 1]) ∧
    generateWithRetry (fun j => if j = 1 then Except.error e else Except.ok v)
        (fun _ => Except.ok ()) 2 =
      (Except.ok (some v),
        [RetryAct.attemptAct 1, RetryAct.reloadAct 1, RetryAct.attemptAct 2]) := by
  constructor
  · simp [generateWithRetry, retryGo]
  · simp [generateWithRetry, retryGo]

/-- C10: with the default retry count, if the single allowed completion
attempt throws and the recovery reload succeeds, the retry wrapper
resolves with `undefined`; consequently `generateChatPrompt` resolves
with the empty string and `generateJSON` resolves with `null` — the
caller's promise fulfills instead of rejecting. -/
theorem retry_undefined_yields_empty_results
    (funcOut : Nat → Except String ChatCompletion)
    (reloadOut : Nat → Except String Unit) (e : String)
    (hf : funcOut 1 = Except.error e) (hr : reloadOut 1 = Except.ok ()) :
    (generateWithRetry funcOut reloadOut 1).1 = Except.ok none ∧
    generateChatPromptRun (Except.ok ()) funcOut reloadOut = Except.ok "" ∧
    generateJSONRun (Except.ok ()) funcOut reloadOut = Except.ok Json.null := by
  have h1 : (generateWithRetry funcOut reloadOut 1).1 = Except.ok none := by
    simp [generateWithRetry, retryGo, hf, hr]
  refine ⟨h1, ?_, ?_⟩
  · simp [generateChatPromptRun, h1, contentOf]
  · simp [generateJSONRun, h1, contentOf, jsTryParse]

theorem retry_undefined_yields_empty_results_witness :
    generateChatPromptRun (Except.ok ()) (fun _ => Except.error "boom")
        (fun _ => Except.ok ()) = Except.ok "" ∧
    generateJSONRun (Except.ok ()) (fun _ => Except.error "boom")
        (fun _ => Except.ok ()) = Except.ok Json.null :=
  ⟨(retry_undefined_yields_empty_results (fun _ => Except.error "boom")
      (fun _ => Except.ok ()) "boom" rfl rfl).2.1,
   (retry_undefined_yields_empty_results (fun _ => Except.error "boom")
      (fun _ => Except.ok ()) "boom" rfl rfl).2.2⟩

/-- C6: on every backend chunk sequence, `generateChatStream` yields one
record per chunk of the form `{text, swipes: [], logprobs: null}` whose
`text` is the cumulative concatenation of all content fragments so far
(`specCumulativeTexts`, written from the spec's words), the sequence
ends with the backend's chunks, and the `"Hel"`, `"lo"`, `"!"` example
yields texts `"Hel"`, `"Hello"`, `"Hello!"`. -/
theorem generateChatStream_cumulative (chunks : List StreamChunk) :
    generateChatStreamRecords chunks =
      (specCumulativeTexts (chunks.map deltaContent)).map
        (fun tx => { text := tx, swipes := [], logprobs := none }) ∧
    (generateChatStreamRecords chunks).length = chunks.length ∧
    generateChatStreamRecords
        [StreamChunk.mk [StreamChoice.mk (some (StreamDelta.mk (some "Hel")))],
         StreamChunk.mk [StreamChoice.mk (some (StreamDelta.mk (some "lo")))],
         StreamChunk.mk [StreamChoice.mk (some (StreamDelta.mk (some "!")))]] =
      [{ text := "Hel", swipes := [], logprobs := none },
       { text := "Hello", swipes := [], logprobs := none },
       { text := "Hello!", swipes := [], logprobs := none }] := by
  have hmain : generateChatStreamRecords chunks =
      (specCumulativeTexts (chunks.map deltaContent)).map
        (fun tx => { text := tx, swipes := [], logprobs := none }) := by
    rw [generateChatStreamRecords, streamGo_spec]
    apply List.map_congr_left
    intro tx _
    simp
  refine ⟨hmain, ?_, rfl⟩
  rw [hmain]
  simp [specCumulativeTexts]

/-- C7: the effective completion parameters of `#getParams` are the
shallow field-by-field JavaScript spread merge: a property assigned in
the override wins, a property unset in the override falls back to the
session default, and properties unset in both are absent.  The
`temperature`/`max_tokens` examples of the spec are instances. -/
theorem getParams_shallow_merge :
    (∀ (defaults override : List (String × Json)) (k : String),
      getProp (getParams defaults override) k =
        (getProp override k).orElse (fun _ => getProp defaults k)) ∧
    getProp (getParams [("temperature", Json.num (7 / 10))] [("max_tokens", Json.num 50)])
      "temperature" = some (Json.num (7 / 10)) ∧
    getProp (getParams [("temperature", Json.num (7 / 10))] [("max_tokens", Json.num 50)])
      "max_tokens" = some (Json.num 50) ∧
    getProp (getParams [("temperature", Json.num (7 / 10))] [("temperature", Json.num (2 / 10))])
      "temperature" = some (Json.num (2 / 10)) ∧
    getProp (getParams [("temperature", Json.num (7 / 10))] [("max_tokens", Json.num 50)])
      "top_p" = none := by
  refine ⟨fun d o k => getProp_append d o k, ?_, ?_, ?_, ?_⟩ <;> rfl

/-- C8: `generateJSON` never rejects with a parse exception: whatever
the first choice's message text parses to, the call resolves with the
`#tryParse` result — the parsed value when the text is valid JSON, and
`null` when it is not. -/
theorem generateJSON_soft_fail (funcOut : Nat → Except String ChatCompletion)
    (reloadOut : Nat → Except String Unit) (comp : ChatCompletion)
    (hf : funcOut 1 = Except.ok comp) :
    generateJSONRun (Except.ok ()) funcOut reloadOut =
      Except.ok (jsTryParse (contentOf (some comp))) ∧
    (∀ s, parseJson s = none → jsTryParse (some s) = Json.null) ∧
    (∀ s v, parseJson s = some v → jsTryParse (some s) = v) := by
  refine ⟨?_, ?_, ?_⟩
  · have h1 : (generateWithRetry funcOut reloadOut 1).1 = Except.ok (some comp) := by
      simp [generateWithRetry, retryGo, hf]
    simp [generateJSONRun, h1]
  · intro s hs
    simp [jsTryParse, hs]
  · intro s v hs
    simp [jsTryParse, hs]

theorem generateJSON_soft_fail_witness :
    generateJSONRun (Except.ok ())
        (fun _ => Except.ok (ChatCompletion.mk
          [CompletionChoice.mk (some (CompletionMessage.mk (some "not json")))]))
        (fun _ => Except.ok ()) = Except.ok Json.null ∧
    generateJSONRun (Except.ok ())
        (fun _ => Except.ok (ChatCompletion.mk
          [CompletionChoice.mk (some (CompletionMessage.mk (some "[1, true]")))]))
        (fun _ => Except.ok ()) =
      Except.ok (Json.arr [Json.num 1, Json.bool true]) :=
  ⟨((generateJSON_soft_fail _ (fun _ => Except.ok ()) (ChatCompletion.mk
      [CompletionChoice.mk (some (CompletionMessage.mk (some "not json")))]) rfl).1).trans rfl,
   ((generateJSON_soft_fail _ (fun _ => Except.ok ()) (ChatCompletion.mk
      [CompletionChoice.mk (some (CompletionMessage.mk (some "[1, true]")))]) rfl).1).trans rfl⟩

theorem localeLe_trans {a b c : String} (hab : localeLe a b) (hbc : localeLe b c) :
    localeLe a c := by
  rcases hab with h1 | ⟨e1, k1⟩
  · rcases hbc with h2 | ⟨e2, _⟩
    · exact Or.inl (lt_trans h1 h2)
    · exact Or.inl (by rw [← e2]; exact h1)
  · rcases hbc with h2 | ⟨e2, k2⟩
    · exact Or.inl (by rw [e1]; exact h2)
    · exact Or.inr ⟨e1.trans e2, le_trans k1 k2⟩

theorem localeLe_total (a b : String) : localeLe a b ∨ localeLe b a := by
  rcases lt_trichotomy (asciiLower a) (asciiLower b) with h | h | h
  · exact Or.inl (Or.inl h)
  · rcases Nat.le_total (caseKey a) (caseKey b) with hk | hk
    · exact Or.inl (Or.inr ⟨h, hk⟩)
    · exact Or.inr (Or.inr ⟨h.symm, hk⟩)
  · exact Or.inr (Or.inl h)

theorem localeLe_amodel_Bmodel : localeLe "a-model" "B-model" := by
  refine Or.inl ?_
  rw [show asciiLower "a-model" = "a-model" from rfl,
    show asciiLower "B-model" = "b-model" from rfl, String.lt_iff_toList_lt]
  decide

theorem not_localeLe_bmodel_amodel : ¬ localeLe "b-model" "a-model" := by
  intro h
  rcases h with h | ⟨he, _⟩
  · rw [show asciiLower "b-model" = "b-model" from rfl,
      show asciiLower "a-model" = "a-model" from rfl, String.lt_iff_toList_lt] at h
    exact absurd h (by decide)
  · rw [show asciiLower "b-model" = "b-model" from rfl,
      show asciiLower "a-model" = "a-model" from rfl] at he
    have := congrArg String.data he
    exact absurd this (by decide)

/-- C9 counterexample: the claim asserts the `getModels` output is
sorted by ascending id in lexicographic order for every registry.
Under the source's `localeCompare` comparator (line 216), the
mixed-case registry `["a-model", "B-model"]` is returned in that same
order, because the default collation compares base letters before
case, so `"a-model"` precedes `"B-model"`; yet `"B-model"` precedes
`"a-model"` in lexicographic code-point order — the returned list is
not lexicographically ascending. -/
theorem getModels_not_codepoint_lexicographic :
    getModels [ModelRecord.mk "a-model" 1024 none, ModelRecord.mk "B-model" 2048 none] =
      [mvm (ModelRecord.mk "a-model" 1024 none), mvm (ModelRecord.mk "B-model" 2048 none)] ∧
    ("B-model" : String) < "a-model" := by
  constructor
  · simp [getModels, List.insertionSort, List.orderedInsert, mvm, localeLe_amodel_Bmodel]
  · rw [String.lt_iff_toList_lt]
    decide

/-- C9 amended: `getModels` returns one view-model descriptor per
registry entry (it is a permutation of the projected registry), sorted
ascending by the `localeCompare` collation on ids (`localeLe`:
case-insensitive at primary strength, case deciding only between equal
foldings) — not by code-point lexicographic order, with which it
coincides on uniformly-lowercase ids: the `["b-model", "a-model"]`
example comes back as `["a-model", "b-model"]`. -/
theorem getModels_locale_sorted (registry : List ModelRecord) :
    (getModels registry).Pairwise (fun a b => localeLe a.id b.id) ∧
    (getModels registry).Perm (registry.map mvm) ∧
    getModels [ModelRecord.mk "b-model" 1024 none, ModelRecord.mk "a-model" 2048 none] =
      [mvm (ModelRecord.mk "a-model" 2048 none), mvm (ModelRecord.mk "b-model" 1024 none)] := by
  refine ⟨?_, List.perm_insertionSort _ _, ?_⟩
  · have htot : IsTotal ModelView (fun a b => localeLe a.id b.id) :=
      ⟨fun a b => localeLe_total a.id b.id⟩
    have htr : IsTrans ModelView (fun a b => localeLe a.id b.id) :=
      ⟨fun a b c hab hbc => localeLe_trans hab hbc⟩
    exact List.sorted_insertionSort _ _
  · simp [getModels, List.insertionSort, List.orderedInsert, mvm, not_localeLe_bmodel_amodel]

/-- C5: the `AsyncLock` contract: an `acquireLock` against a free lock
takes it at once without queueing; against a held lock it parks the
caller at the back of the queue and suspends; `releaseLock` hands the
lock to the oldest (longest-waiting) parked caller, keeping the flag
set, and clears the flag only when nobody waits; and over any request
history, the deferred acquirers are granted the lock strictly in the
order of their acquisition attempts (grants followed by the residual
queue equal the initial queue followed by the deferral order). -/
theorem asyncLock_contract_fifo :
    (∀ (s : LockSt) (t : Nat), s.lock = false → (acquireLock t s).2 = true ∧
      (acquireLock t s).1.lock = true ∧ (acquireLock t s).1.queue = s.queue) ∧
    (∀ (s : LockSt) (t : Nat), s.lock = true → (acquireLock t s).2 = false ∧
      (acquireLock t s).1.queue = s.queue ++ [t] ∧ (acquireLock t s).1.lock = true) ∧
    (∀ (s : LockSt) (r : Nat) (rest : List Nat), s.queue = r :: rest →
      (releaseLock s).2 = some r ∧ (releaseLock s).1.queue = rest ∧
      (releaseLock s).1.lock = s.lock) ∧
    (∀ s : LockSt, s.queue = [] → (releaseLock s).2 = none ∧
      (releaseLock s).1.lock = false) ∧
    (∀ (evs : List LockEv) (s : LockSt),
      (lockRun s evs).2.1 ++ (lockRun s evs).1.queue = s.queue ++ (lockRun s evs).2.2) := by
  refine ⟨?_, ?_, ?_, ?_, fun evs s => lockRun_fifo evs s⟩
  · intro s t hl
    simp [acquireLock, hl]
  · intro s t hl
    simp [acquireLock, hl]
  · intro s r rest hq
    simp [releaseLock, hq]
  · intro s hq
    simp [releaseLock, hq]

theorem asyncLock_contract_fifo_witness :
    (acquireLock 7 (LockSt.mk false [])).2 = true ∧
    (acquireLock 7 (LockSt.mk true [5])).1.queue = [5, 7] ∧
    (releaseLock (LockSt.mk true [3, 4])).2 = some 3 ∧
    (releaseLock (LockSt.mk true [])).1.lock = false :=
  ⟨(asyncLock_contract_fifo.1 (LockSt.mk false []) 7 rfl).1,
   (asyncLock_contract_fifo.2.1 (LockSt.mk true [5]) 7 rfl).2.1,
   (asyncLock_contract_fifo.2.2.1 (LockSt.mk true [3, 4]) 3 [4] rfl).1,
   (asyncLock_contract_fifo.2.2.2.1 (LockSt.mk true []) rfl).2⟩

theorem isHolderish_of_isBusy {p : Pc} (h : p.isEngineBusyPc = true) :
    p.isHolderishPc = true := by
  cases p <;> simp_all [Pc.isEngineBusyPc, Pc.isHolderishPc, Pc.isHolderPc]

/-- C2: in every reachable interleaving (any task list, any schedule of
resumptions), at most one operation has a backend call in flight
against the session's engine handle at any instant, and the ghost event
trace is a serial sequence of acquire/backend-call/release blocks in
mutex-acquisition order (so the effects on the handle and
`#currentModelId`, which all happen inside such blocks, are observed in
that serial order with no interleaving of backend calls). -/
theorem engine_ops_serialized (kinds : List OpKind) (m0 : Option String)
    (sched : List Nat) :
    (∀ t₁ t₂,
      ((exec sched (initSys kinds m0)).tasks t₁).pc.isEngineBusyPc = true →
      ((exec sched (initSys kinds m0)).tasks t₂).pc.isEngineBusyPc = true → t₁ = t₂) ∧
    (serialCheck none (exec sched (initSys kinds m0)).events).isSome = true := by
  obtain ⟨hLex, _⟩ := sysInv_exec sched (initSys kinds m0) (sysInv_initSys kinds m0)
  constructor
  · intro t₁ t₂ h1 h2
    exact hLex.uniq t₁ t₂ (isHolderish_of_isBusy h1) (isHolderish_of_isBusy h2)
  · obtain ⟨hh, hsc, _⟩ := hLex.serial
    rw [hsc]
    rfl

theorem engine_ops_serialized_witness :
    ((exec [0, 0] (initSys [OpKind.initOp (some "a") true true] none)).tasks 0).pc =
      Pc.awaitCreate "a" ∧
    (0 : Nat) = 0 ∧
    (serialCheck none
      (exec [0, 0] (initSys [OpKind.initOp (some "a") true true] none)).events).isSome = true :=
  ⟨rfl, (engine_ops_serialized [OpKind.initOp (some "a") true true] none [0, 0]).1 0 0 rfl rfl,
   (engine_ops_serialized [OpKind.initOp (some "a") true true] none [0, 0]).2⟩

/-- C3 counterexample: the claim is false on the code in two ways,
shown on one concrete execution (`reloadFailKinds`).  First, while the
`ensureReady("b")` reload is still awaiting the backend
(`reloadFailMid`), `#currentModelId` already holds the pending target
`"b"` (the source assigns at line 191 before awaiting), so
`getCurrentModelInfo` already reflects the pending id — contradicting
"does not yet reflect the pending target id".  Second, after the
reload fails and the mutex is released (`reloadFailEnd`, all tasks
finished, lock free), `#currentModelId` is `"b"` while the engine is
still resident with `"a"` — contradicting the claimed invariant at a
mutex-free point. -/
theorem currentModelId_stale_counterexample :
    ((reloadFailMid.tasks 1).pc = Pc.awaitReload "b" ∧
      reloadFailMid.currentModelId = some "b" ∧
      reloadFailMid.engine = some "a" ∧
      getCurrentModelInfoFrom reloadFailRegistry reloadFailMid.currentModelId =
        some (mvm (ModelRecord.mk "b" 2048 none))) ∧
    (reloadFailEnd.lock = false ∧
      (reloadFailEnd.tasks 0).pc = Pc.done true ∧
      (reloadFailEnd.tasks 1).pc = Pc.done false ∧
      reloadFailEnd.engine = some "a" ∧
      reloadFailEnd.currentModelId = some "b") :=
  ⟨⟨rfl, rfl, rfl, rfl⟩, rfl, rfl, rfl, rfl, rfl⟩

/-- C3 amended: in executions where no backend create/reload call has
failed, whenever the mutex is free, `#currentModelId` equals the model
resident in the engine handle; and during an in-flight
`CreateMLCEngine(m)` or `engine.reload(m)` call, `#currentModelId`
already holds the pending target `m` (so `getCurrentModelInfo` reflects
a pending id as soon as the initialization path publishes it, before
the backend call completes). -/
theorem currentModelId_consistent_when_no_failure (kinds : List OpKind)
    (m0 : Option String) (sched : List Nat) :
    ((exec sched (initSys kinds m0)).failed = false →
      (exec sched (initSys kinds m0)).lock = false →
      ∀ r, (exec sched (initSys kinds m0)).engine = some r →
        (exec sched (initSys kinds m0)).currentModelId = some r) ∧
    ((exec sched (initSys kinds m0)).failed = false →
      ∀ t m, (((exec sched (initSys kinds m0)).tasks t).pc = Pc.awaitCreate m ∨
          ((exec sched (initSys kinds m0)).tasks t).pc = Pc.awaitReload m) →
        (exec sched (initSys kinds m0)).currentModelId = some m) := by
  obtain ⟨hLex, hMex⟩ := sysInv_exec sched (initSys kinds m0) (sysInv_initSys kinds m0)
  constructor
  · intro hfail hlock r hr
    obtain ⟨h1, h2, h3⟩ := hMex hfail
    rcases h3 r hr with hl | ⟨u, m, hu⟩
    · exact hl
    · have hfree := hLex.freeAll hlock u
      rw [hu] at hfree
      simp [Pc.isHolderishPc, Pc.isHolderPc] at hfree
  · intro hfail t m hh
    obtain ⟨h1, h2, _⟩ := hMex hfail
    rcases hh with hh | hh
    · exact (h1 t m hh).2
    · exact h2 t m hh

theorem currentModelId_consistent_when_no_failure_witness :
    (exec [0, 0, 0, 1, 1] (initSys reloadFailKinds none)).currentModelId = some "b" :=
  (currentModelId_consistent_when_no_failure reloadFailKinds none [0, 0, 0, 1, 1]).2
    rfl 1 "b" (Or.inr rfl)

end WebLLM
